import Mathlib

/-!
Verification of the threadgraph analyzer (Heman10x-NGU/threadgraph).

The Go sources are shallowly embedded: Go strings are `List Char` (so that
all string operations are structurally recursive and kernel-evaluable),
`time.Duration` and `trace.Time` are `Int` (int64 nanoseconds), goroutine
maps are association lists `List (GoID × goroutineState)`, and each detector
is a Lean function mirroring the Go control flow statement by statement.
-/

namespace ThreadGraph

/-- Go strings, embedded as lists of characters. -/
abbrev Str := List Char

/-- Literal helper: the character list of a Lean string literal. -/
def str (s : String) : Str := s.data

/-- Go `unicode.IsSpace` restricted to the characters relevant to
`strings.TrimSpace`: space, \t, \n, \v, \f, \r, NEL (U+0085), NBSP (U+00A0). -/
def goIsSpace (c : Char) : Bool :=
  c.toNat = 32 || c.toNat = 9 || c.toNat = 10 || c.toNat = 11 ||
  c.toNat = 12 || c.toNat = 13 || c.toNat = 133 || c.toNat = 160

/-- Go `strings.TrimSpace`: drop whitespace from both ends. -/
def goTrimSpace (s : Str) : Str :=
  ((s.dropWhile goIsSpace).reverse.dropWhile goIsSpace).reverse

/-- Go `strings.Split(s, "\n")`: split on every newline. -/
def splitLines : Str → List Str
  | [] => [[]]
  | c :: cs =>
    if c = '\n' then [] :: splitLines cs
    else
      match splitLines cs with
      | [] => [[c]]
      | l :: ls => (c :: l) :: ls

/-- First component of Go `strings.SplitN(s, " ", 2)`: the prefix of `s`
up to (excluding) the first space. -/
def firstField (s : Str) : Str := s.takeWhile (fun c => c ≠ ' ')

/-- Go `strings.Contains(s, sub)`: `sub` occurs contiguously in `s`. -/
def strContains (s sub : Str) : Bool := s.tails.any (fun t => sub.isPrefixOf t)

/-! ## Stack classifier (`internal/detector/filter.go`) -/

/-- `isRuntimeFrame` from `internal/detector/filter.go`: a frame is a runtime
frame when its function name starts with `runtime.` or `runtime2.`, its line
contains `runtime/` or `/runtime/trace`, its function name starts with
`testing.`, or its line contains `_testmain.go`. -/
def isRuntimeFrame (funcName line : Str) : Bool :=
  (str "runtime.").isPrefixOf funcName ||
  strContains line (str "runtime/") ||
  (str "runtime2.").isPrefixOf funcName ||
  strContains line (str "/runtime/trace") ||
  (str "testing.").isPrefixOf funcName ||
  strContains line (str "_testmain.go")

/-- `isRuntimeGoroutine` from `internal/detector/filter.go`: the empty stack is
runtime-only; otherwise every non-empty trimmed line, with its first
space-separated field as the function name, must be a runtime frame. -/
def isRuntimeGoroutine (stack : Str) : Bool :=
  if stack = [] then true
  else
    (splitLines stack).all (fun rawLine =>
      let line := goTrimSpace rawLine
      if line = [] then true
      else isRuntimeFrame (firstField line) line)

/-- `isNonTestRuntimeGoroutine` from `internal/detector/filter.go`: a
runtime-only stack whose rendered text does not contain `testing.`. -/
def isNonTestRuntimeGoroutine (stack : Str) : Bool :=
  if !(isRuntimeGoroutine stack) then false
  else !(strContains stack (str "testing."))

/-- Written from the claim's words: the stack contains a `testing.` function,
i.e. some non-empty trimmed line's function name (its first space-separated
field) starts with `testing.`. -/
def stackHasTestingFunction (stack : Str) : Bool :=
  (splitLines stack).any (fun rawLine =>
    let line := goTrimSpace rawLine
    !(line = []) && (str "testing.").isPrefixOf (firstField line))

/-- A rendered stack whose single frame is the runtime function
`runtime.goexit` located in a file named `testing.go`: runtime-only, no
`testing.`-package function, yet the rendered text contains `testing.`. -/
def runtimeTestingGoStack : Str := str "      runtime.goexit (src/runtime/testing.go:1)\n"

example : isRuntimeGoroutine (str "") = true := by decide

example :
    isRuntimeGoroutine (str "      runtime.gopark (go/src/runtime/proc.go:1)\n") = true := by
  decide

example :
    isNonTestRuntimeGoroutine (str "      testing.tRunner (testing/testing.go:1595)\n") = false := by
  decide

example :
    isRuntimeGoroutine (str "      main.leakyWorker (testdata/buggy/main.go:42)\n") = false := by
  decide

/-- C2, counterexample: on the stack `runtimeTestingGoStack` the stack is
runtime-only and contains no `testing.` function, yet
`isNonTestRuntimeGoroutine` returns `false`, because the code tests the raw
substring `testing.` against the whole rendered string and the file name
`testing.go` contains it. This refutes the claimed iff as stated. -/
theorem nonTestRuntime_claim_counterexample :
    isRuntimeGoroutine runtimeTestingGoStack = true ∧
    stackHasTestingFunction runtimeTestingGoStack = false ∧
    isNonTestRuntimeGoroutine runtimeTestingGoStack = false := by
  refine ⟨by decide, by decide, by decide⟩

/-- C2, amended: `is_non_test_runtime_only(stack)` is true iff
`is_runtime_only(stack)` is true and the rendered stack string does not
contain the substring `testing.` anywhere (in a function name or a file
path, e.g. a file named `testing.go`); and the empty stack is runtime-only. -/
theorem nonTestRuntime_iff_amended (stack : Str) :
    (isNonTestRuntimeGoroutine stack = true ↔
      (isRuntimeGoroutine stack = true ∧ strContains stack (str "testing.") = false)) ∧
    isRuntimeGoroutine (str "") = true := by
  constructor
  · rcases Bool.eq_false_or_eq_true (isRuntimeGoroutine stack) with h | h <;>
      simp [isNonTestRuntimeGoroutine, h]
  · decide

/-! ## Data model (`internal/detector`)

The types below are read off the fields used by the detectors in
`internal/detector` (`detectLeaks`, `detectOrphans`, `detectTransientBlocks`)
and by `cmd/run.go` / `internal/reporter/json.go`. `trace.GoID` is `Nat`,
`trace.Time` and `time.Duration` are `Int` (int64 nanoseconds), and the
goroutine map is an association list in iteration order. -/

/-- Finding kinds (`KindGoroutineLeak`, `KindDeadlock`, `KindLongBlock`,
`KindLockLeak`). -/
inductive Kind where
  | goroutineLeak
  | deadlock
  | longBlock
  | lockLeak
deriving DecidableEq, Repr

/-- The serialized kind strings (`goroutine_leak | deadlock | long_block |
lock_leak`, per the structured-presentation contract). -/
def Kind.render : Kind → Str
  | .goroutineLeak => str "goroutine_leak"
  | .deadlock => str "deadlock"
  | .longBlock => str "long_block"
  | .lockLeak => str "lock_leak"

/-- Confidence levels (`ConfidenceHigh`, `ConfidenceMedium`, `ConfidenceLow`). -/
inductive Confidence where
  | high
  | medium
  | low
deriving DecidableEq, Repr

/-- The serialized confidence strings (`high|medium|low`). -/
def Confidence.render : Confidence → Str
  | .high => str "high"
  | .medium => str "medium"
  | .low => str "low"

/-- `detector.Finding`. -/
structure Finding where
  kind : Kind
  confidence : Confidence
  goroutineID : Nat
  blockedOn : Str
  blockedFor : Int := 0
  stack : Str := []
  function : Str := []
  location : Str := []
deriving DecidableEq, Repr

/-- `detector.Options`: `{MinBlock, DebugFiltered}`. -/
structure Options where
  minBlock : Int
  debugFiltered : Bool := false
deriving DecidableEq, Repr

/-- `syncHistorySize` from `internal/detector/detector.go`. -/
def syncHistorySize : Nat := 5

/-- `detector.syncEntry`: one sync-primitive unblock —
`{location, endTime}`. Go's zero value is `{"", 0}`. -/
structure SyncEntry where
  location : Str
  endTime : Int
deriving DecidableEq, Repr

/-- `detector.goroutineState` from `internal/detector/detector.go` (staged
among the documents of `src/testdata/etcd-leasehttp/bug_test.go`): the
per-goroutine record — current block, creation provenance, transient
long-block memory, the five-entry circular sync history with its monotonic
write index and most-recent shortcut, and death tracking. Defaults are Go's
zero values. -/
structure goroutineState where
  reason : Str := []
  stack : Str := []
  function : Str := []
  location : Str := []
  blockStart : Int := 0
  isBlocked : Bool := false
  creationStack : Str := []
  creationSeen : Bool := false
  creationFunction : Str := []
  creationLocation : Str := []
  prevLongBlockReason : Str := []
  prevLongBlockStack : Str := []
  prevLongBlockFunction : Str := []
  prevLongBlockLocation : Str := []
  prevLongBlockDuration : Int := 0
  syncHistory : List SyncEntry := List.replicate syncHistorySize { location := [], endTime := 0 }
  syncHistoryIdx : Nat := 0
  prevSyncLocation : Str := []
  prevSyncEndTime : Int := 0
  goroutineDead : Bool := false
deriving DecidableEq, Repr

/-! ## Detector: leaks and long blocks (`detectLeaks`) -/

/-- The body of `detectLeaks`'s loop for one goroutine, `continue` rendered
as `none`: filter by blocking stack, skip `sleep`, provenance filter for
channel and for non-channel-non-sync blocks, then emit `GoroutineLeak/High`
for channel blocks and `LongBlock/Medium` above the threshold otherwise. -/
def leakFindingFor (gid : Nat) (g : goroutineState) (lastTime : Int)
    (opts : Options) : Option Finding :=
  if !g.isBlocked then none
  else if isRuntimeGoroutine g.stack then none
  else if g.reason = str "sleep" then none
  else
    let isChanBlock := g.reason = str "chan send" || g.reason = str "chan receive"
    let isSyncBlock := g.reason = str "sync"
    if isChanBlock && !g.creationSeen then none
    else if isChanBlock && isNonTestRuntimeGoroutine g.creationStack then none
    else if (!isChanBlock && !isSyncBlock) &&
        (!g.creationSeen || isNonTestRuntimeGoroutine g.creationStack) then none
    else
      let blocked := lastTime - g.blockStart
      if isChanBlock then
        some { kind := .goroutineLeak, confidence := .high, goroutineID := gid,
               blockedOn := g.reason, blockedFor := blocked, stack := g.stack,
               function := g.function, location := g.location }
      else if blocked < opts.minBlock then none
      else
        some { kind := .longBlock, confidence := .medium, goroutineID := gid,
               blockedOn := g.reason, blockedFor := blocked, stack := g.stack,
               function := g.function, location := g.location }

/-- `detectLeaks`: iterate the snapshot, appending the loop body's finding
when it emits one. -/
def detectLeaks (goroutines : List (Nat × goroutineState)) (lastTime : Int)
    (opts : Options) : List Finding :=
  goroutines.filterMap (fun p => leakFindingFor p.1 p.2 lastTime opts)

/-- Written from the claim's words (spec §4.4 step 4): the provenance filter —
`creation_seen = true` and `is_non_test_runtime_only(creation_stack) = false`. -/
def provenancePasses (g : goroutineState) : Bool :=
  g.creationSeen && !(isNonTestRuntimeGoroutine g.creationStack)

/-- Written from the claim's words (spec §4.4, steps 1-5 in order): skip
runtime-only blocking stacks and `sleep`; channel blocks need provenance and
give `GoroutineLeak/High` with no minimum duration; `sync` blocks skip
provenance; all other reasons need provenance; non-channel blocks give
`LongBlock/Medium` only when `blocked_for = last_time - block_start` is at
least `opts.min_block`. -/
def specLeakFinding (gid : Nat) (g : goroutineState) (lastTime : Int)
    (opts : Options) : Option Finding :=
  if g.isBlocked = false then none
  else if isRuntimeGoroutine g.stack = true then none
  else if g.reason = str "sleep" then none
  else if g.reason = str "chan send" ∨ g.reason = str "chan receive" then
    if provenancePasses g then
      some { kind := .goroutineLeak, confidence := .high, goroutineID := gid,
             blockedOn := g.reason, blockedFor := lastTime - g.blockStart,
             stack := g.stack, function := g.function, location := g.location }
    else none
  else if g.reason = str "sync" then
    if opts.minBlock ≤ lastTime - g.blockStart then
      some { kind := .longBlock, confidence := .medium, goroutineID := gid,
             blockedOn := g.reason, blockedFor := lastTime - g.blockStart,
             stack := g.stack, function := g.function, location := g.location }
    else none
  else
    if provenancePasses g then
      if opts.minBlock ≤ lastTime - g.blockStart then
        some { kind := .longBlock, confidence := .medium, goroutineID := gid,
               blockedOn := g.reason, blockedFor := lastTime - g.blockStart,
               stack := g.stack, function := g.function, location := g.location }
      else none
    else none

lemma leakFindingFor_eq_spec (gid : Nat) (g : goroutineState) (lastTime : Int)
    (opts : Options) :
    leakFindingFor gid g lastTime opts = specLeakFinding gid g lastTime opts := by
  unfold leakFindingFor specLeakFinding provenancePasses
  cases hb : g.isBlocked <;> simp only [hb, Bool.not_true, Bool.not_false,
    if_true, if_false, Bool.false_eq_true, Bool.true_eq_false, ite_true, ite_false,
    reduceIte]
  cases hrun : isRuntimeGoroutine g.stack <;> simp only [hrun, if_true, if_false,
    Bool.false_eq_true, reduceIte]
  by_cases hsleep : g.reason = str "sleep" <;> simp only [hsleep, if_true, if_false,
    ite_true, ite_false, reduceIte]
  by_cases hchan : g.reason = str "chan send" ∨ g.reason = str "chan receive"
  · have hchanB : (g.reason = str "chan send" || g.reason = str "chan receive") = true := by
      rcases hchan with h | h <;> simp [h]
    cases hseen : g.creationSeen <;>
      cases hnt : isNonTestRuntimeGoroutine g.creationStack <;>
        simp [hchanB, hchan, hseen, hnt]
  · have hchanB : (g.reason = str "chan send" || g.reason = str "chan receive") = false := by
      push_neg at hchan
      simp [hchan.1, hchan.2]
    by_cases hsy : g.reason = str "sync"
    · have hne1 : ¬(str "sync" = str "chan send") := by decide
      have hne2 : ¬(str "sync" = str "chan receive") := by decide
      rcases lt_or_le (lastTime - g.blockStart) opts.minBlock with hth | hth
      · simp [hchanB, hchan, hsy, hne1, hne2, hth, not_le.mpr hth]
      · simp [hchanB, hchan, hsy, hne1, hne2, hth, not_lt.mpr hth]
    · cases hseen : g.creationSeen <;>
        cases hnt : isNonTestRuntimeGoroutine g.creationStack <;>
          rcases lt_or_le (lastTime - g.blockStart) opts.minBlock with hth | hth <;>
            simp [hchanB, hchan, hsy, hseen, hnt, hth, not_le.mpr, not_lt.mpr hth]

/-- C1: over the final snapshot, `detectLeaks` emits findings exactly as spec
§4.4 prescribes: skip blocked goroutines with runtime-only blocking stacks or
reason `sleep`; `chan send`/`chan receive` require `creation_seen` and a
creation stack that is not non-test-runtime-only and give `GoroutineLeak/High`
with no minimum duration; `sync` skips the provenance filter; every other
reason applies the channel provenance filter; non-channel reasons give
`LongBlock/Medium` only when `last_time - block_start ≥ opts.min_block`. -/
theorem detectLeaks_spec (goroutines : List (Nat × goroutineState))
    (lastTime : Int) (opts : Options) :
    detectLeaks goroutines lastTime opts =
      goroutines.filterMap (fun p => specLeakFinding p.1 p.2 lastTime opts) := by
  unfold detectLeaks
  induction goroutines with
  | nil => rfl
  | cons p rest ih =>
    simp only [List.filterMap_cons, leakFindingFor_eq_spec, ih]

lemma specLeakFinding_some {gid : Nat} {g : goroutineState} {lastTime : Int}
    {opts : Options} {f : Finding}
    (h : specLeakFinding gid g lastTime opts = some f) :
    g.isBlocked = true ∧ isRuntimeGoroutine g.stack = false ∧
    f.goroutineID = gid ∧ f.blockedOn = g.reason ∧ f.stack = g.stack ∧
    ((f.kind = Kind.goroutineLeak ∧
        (g.reason = str "chan send" ∨ g.reason = str "chan receive")) ∨
      (f.kind = Kind.longBlock ∧
        ¬(g.reason = str "chan send" ∨ g.reason = str "chan receive"))) := by
  unfold specLeakFinding at h
  by_cases hb : g.isBlocked = false
  · rw [if_pos hb] at h; exact absurd h (by simp)
  rw [if_neg hb] at h
  by_cases hrun : isRuntimeGoroutine g.stack = true
  · rw [if_pos hrun] at h; exact absurd h (by simp)
  rw [if_neg hrun] at h
  by_cases hsleep : g.reason = str "sleep"
  · rw [if_pos hsleep] at h; exact absurd h (by simp)
  rw [if_neg hsleep] at h
  by_cases hchan : g.reason = str "chan send" ∨ g.reason = str "chan receive"
  · rw [if_pos hchan] at h
    by_cases hprov : provenancePasses g = true
    · rw [if_pos hprov, Option.some_inj] at h; subst h
      exact ⟨by simpa using hb, by simpa using hrun, rfl, rfl, rfl, Or.inl ⟨rfl, hchan⟩⟩
    · rw [if_neg hprov] at h; exact absurd h (by simp)
  · rw [if_neg hchan] at h
    by_cases hsy : g.reason = str "sync"
    · rw [if_pos hsy] at h
      by_cases hth : opts.minBlock ≤ lastTime - g.blockStart
      · rw [if_pos hth, Option.some_inj] at h; subst h
        exact ⟨by simpa using hb, by simpa using hrun, rfl, rfl, rfl, Or.inr ⟨rfl, hchan⟩⟩
      · rw [if_neg hth] at h; exact absurd h (by simp)
    · rw [if_neg hsy] at h
      by_cases hprov : provenancePasses g = true
      · rw [if_pos hprov] at h
        by_cases hth : opts.minBlock ≤ lastTime - g.blockStart
        · rw [if_pos hth, Option.some_inj] at h; subst h
          exact ⟨by simpa using hb, by simpa using hrun, rfl, rfl, rfl, Or.inr ⟨rfl, hchan⟩⟩
        · rw [if_neg hth] at h; exact absurd h (by simp)
      · rw [if_neg hprov] at h; exact absurd h (by simp)

/-- C8: every finding `detectLeaks` emits with reason `chan send` or
`chan receive` is a `GoroutineLeak`, and the goroutine it names satisfies, in
the final snapshot, `is_blocked = true`, reason in {chan send, chan receive},
and a blocking stack that is not runtime-only. -/
theorem chanFinding_final_state (goroutines : List (Nat × goroutineState))
    (lastTime : Int) (opts : Options) (f : Finding)
    (hf : f ∈ detectLeaks goroutines lastTime opts)
    (hchan : f.blockedOn = str "chan send" ∨ f.blockedOn = str "chan receive") :
    f.kind = Kind.goroutineLeak ∧
    ∃ p ∈ goroutines, p.1 = f.goroutineID ∧ p.2.isBlocked = true ∧
      (p.2.reason = str "chan send" ∨ p.2.reason = str "chan receive") ∧
      isRuntimeGoroutine p.2.stack = false := by
  rw [detectLeaks_spec] at hf
  rcases List.mem_filterMap.mp hf with ⟨p, hp, hsome⟩
  rcases specLeakFinding_some hsome with
    ⟨hb, hrun, hgid, hreason, _, hkind | ⟨_, hnotchan⟩⟩
  · exact ⟨hkind.1, p, hp, hgid.symm, hb, hkind.2, hrun⟩
  · rw [hreason] at hchan
    exact absurd hchan hnotchan

/-! Concrete snapshots used by the witness theorems. -/

/-- A user blocking stack (one user frame). -/
def userStack : Str := str "      main.worker (main.go:15)\n"

/-- A testing-harness creation stack: runtime-only but with a `testing.`
frame, so `isNonTestRuntimeGoroutine` is false and provenance passes. -/
def testCreationStack : Str := str "      testing.tRunner (testing/testing.go:1595)\n"

/-- A goroutine blocked on `chan send` with user blocking stack and
testing-harness creation stack. -/
def sampleChanState : goroutineState :=
  { isBlocked := true, reason := str "chan send", blockStart := 3,
    stack := userStack, function := str "main.worker", location := str "main.go:15",
    creationSeen := true, creationStack := testCreationStack }

/-- Default options: `min_block = 1 s`. -/
def sampleOpts : Options := { minBlock := 1000000000 }

/-- C8 witness: the invariant applied to the snapshot holding only
`sampleChanState`, at `last_time = 10`. -/
theorem chanFinding_final_state_witness :
    (Finding.mk Kind.goroutineLeak Confidence.high 7 (str "chan send") 7
        userStack (str "main.worker") (str "main.go:15")).kind = Kind.goroutineLeak ∧
    ∃ p ∈ [(7, sampleChanState)],
      p.1 = (Finding.mk Kind.goroutineLeak Confidence.high 7 (str "chan send") 7
        userStack (str "main.worker") (str "main.go:15")).goroutineID ∧
      p.2.isBlocked = true ∧
      (p.2.reason = str "chan send" ∨ p.2.reason = str "chan receive") ∧
      isRuntimeGoroutine p.2.stack = false :=
  chanFinding_final_state [(7, sampleChanState)] 10 sampleOpts _
    (by decide) (by decide)

/-! ## Detector: transient long blocks (`detectTransientBlocks`) -/

/-- The finding `detectTransientBlocks` appends for a goroutine:
`LongBlock/Medium` built from the `prevLongBlock*` fields. -/
def transientFinding (gid : Nat) (g : goroutineState) : Finding :=
  { kind := .longBlock, confidence := .medium, goroutineID := gid,
    blockedOn := g.prevLongBlockReason, blockedFor := g.prevLongBlockDuration,
    stack := g.prevLongBlockStack, function := g.prevLongBlockFunction,
    location := g.prevLongBlockLocation }

/-- The per-goroutine filter of `detectTransientBlocks` (spec §4.8):
`prev_long_duration ≥ opts.min_block` and the peak block's stack is not
runtime-only. -/
def transientPasses (g : goroutineState) (opts : Options) : Prop :=
  opts.minBlock ≤ g.prevLongBlockDuration ∧
    isRuntimeGoroutine g.prevLongBlockStack = false

instance (g : goroutineState) (opts : Options) :
    Decidable (transientPasses g opts) := by
  unfold transientPasses; infer_instance

/-- The loop of `detectTransientBlocks`, with the `seen` deduplication map
(`deduplicate by location`) made explicit. -/
def transientLoop (opts : Options) :
    List (Nat × goroutineState) → List Str → List Finding
  | [], _ => []
  | (gid, g) :: rest, seen =>
    if g.prevLongBlockDuration < opts.minBlock then transientLoop opts rest seen
    else if isRuntimeGoroutine g.prevLongBlockStack then transientLoop opts rest seen
    else if g.prevLongBlockLocation ∈ seen then transientLoop opts rest seen
    else transientFinding gid g :: transientLoop opts rest (g.prevLongBlockLocation :: seen)

/-- `detectTransientBlocks`: run the loop with an empty `seen` map. -/
def detectTransientBlocks (goroutines : List (Nat × goroutineState))
    (opts : Options) : List Finding :=
  transientLoop opts goroutines []

lemma mem_transientLoop {opts : Options} :
    ∀ {gs : List (Nat × goroutineState)} {seen : List Str} {f : Finding},
      f ∈ transientLoop opts gs seen →
      ∃ p ∈ gs, f = transientFinding p.1 p.2 ∧ transientPasses p.2 opts ∧
        f.location ∉ seen := by
  intro gs
  induction gs with
  | nil => intro seen f hf; simp [transientLoop] at hf
  | cons p rest ih =>
    intro seen f hf
    obtain ⟨gid, g⟩ := p
    simp only [transientLoop] at hf
    by_cases c1 : g.prevLongBlockDuration < opts.minBlock
    · rw [if_pos c1] at hf
      obtain ⟨q, hq, hrest⟩ := ih hf
      exact ⟨q, List.mem_cons_of_mem _ hq, hrest⟩
    rw [if_neg c1] at hf
    by_cases c2 : isRuntimeGoroutine g.prevLongBlockStack = true
    · rw [if_pos c2] at hf
      obtain ⟨q, hq, hrest⟩ := ih hf
      exact ⟨q, List.mem_cons_of_mem _ hq, hrest⟩
    rw [if_neg c2] at hf
    by_cases c3 : g.prevLongBlockLocation ∈ seen
    · rw [if_pos c3] at hf
      obtain ⟨q, hq, hrest⟩ := ih hf
      exact ⟨q, List.mem_cons_of_mem _ hq, hrest⟩
    rw [if_neg c3] at hf
    rcases List.mem_cons.mp hf with rfl | hf
    · exact ⟨(gid, g), List.mem_cons_self _ _, rfl,
        ⟨not_lt.mp c1, by simpa using c2⟩, c3⟩
    · obtain ⟨q, hq, hfq, hpass, hnotin⟩ := ih hf
      exact ⟨q, List.mem_cons_of_mem _ hq, hfq, hpass,
        fun hmem => hnotin (List.mem_cons_of_mem _ hmem)⟩

lemma transientLoop_covers {opts : Options} :
    ∀ {gs : List (Nat × goroutineState)} {seen : List Str}
      (p : Nat × goroutineState), p ∈ gs → transientPasses p.2 opts →
      p.2.prevLongBlockLocation ∉ seen →
      ∃ f ∈ transientLoop opts gs seen,
        f.location = p.2.prevLongBlockLocation := by
  intro gs
  induction gs with
  | nil => intro seen p hp; simp at hp
  | cons q rest ih =>
    intro seen p hp hpass hnotin
    obtain ⟨gid, g⟩ := q
    simp only [transientLoop]
    by_cases c1 : g.prevLongBlockDuration < opts.minBlock
    · rw [if_pos c1]
      rcases List.mem_cons.mp hp with rfl | hp
      · exact absurd hpass.1 (not_le.mpr c1)
      · exact ih p hp hpass hnotin
    rw [if_neg c1]
    by_cases c2 : isRuntimeGoroutine g.prevLongBlockStack = true
    · rw [if_pos c2]
      rcases List.mem_cons.mp hp with rfl | hp
      · simp [hpass.2] at c2
      · exact ih p hp hpass hnotin
    rw [if_neg c2]
    by_cases c3 : g.prevLongBlockLocation ∈ seen
    · rw [if_pos c3]
      rcases List.mem_cons.mp hp with rfl | hp
      · exact absurd c3 hnotin
      · exact ih p hp hpass hnotin
    rw [if_neg c3]
    rcases List.mem_cons.mp hp with rfl | hp
    · exact ⟨transientFinding gid g, List.mem_cons_self _ _, rfl⟩
    · by_cases hloc : p.2.prevLongBlockLocation = g.prevLongBlockLocation
      · exact ⟨transientFinding gid g, List.mem_cons_self _ _, hloc.symm⟩
      · obtain ⟨f, hf, hfl⟩ := ih p hp hpass (by
          intro hmem
          rcases List.mem_cons.mp hmem with h | h
          · exact hloc h
          · exact hnotin h)
        exact ⟨f, List.mem_cons_of_mem _ hf, hfl⟩

lemma transientLoop_locations_nodup {opts : Options} :
    ∀ {gs : List (Nat × goroutineState)} {seen : List Str},
      ((transientLoop opts gs seen).map (fun f => f.location)).Nodup := by
  intro gs
  induction gs with
  | nil => intro seen; simp [transientLoop]
  | cons q rest ih =>
    intro seen
    obtain ⟨gid, g⟩ := q
    simp only [transientLoop]
    by_cases c1 : g.prevLongBlockDuration < opts.minBlock
    · rw [if_pos c1]; exact ih
    rw [if_neg c1]
    by_cases c2 : isRuntimeGoroutine g.prevLongBlockStack = true
    · rw [if_pos c2]; exact ih
    rw [if_neg c2]
    by_cases c3 : g.prevLongBlockLocation ∈ seen
    · rw [if_pos c3]; exact ih
    rw [if_neg c3]
    refine List.nodup_cons.mpr ⟨?_, ih⟩
    intro hmem
    obtain ⟨f, hf, hfl⟩ := List.mem_map.mp hmem
    obtain ⟨_, _, _, _, hnotin⟩ := mem_transientLoop hf
    exact hnotin (by rw [hfl]; exact List.mem_cons_self _ _)

lemma transientLoop_kindLoc_mem {opts : Options} :
    ∀ {gs : List (Nat × goroutineState)} {seen : List Str} {x : Kind × Str},
      (x ∈ (transientLoop opts gs seen).map (fun f => (f.kind, f.location)) ↔
        ∃ p ∈ gs, transientPasses p.2 opts ∧
          p.2.prevLongBlockLocation ∉ seen ∧
          x = (Kind.longBlock, p.2.prevLongBlockLocation)) := by
  intro gs
  induction gs with
  | nil => intro seen x; simp [transientLoop]
  | cons q rest ih =>
    intro seen x
    obtain ⟨gid, g⟩ := q
    simp only [transientLoop]
    by_cases c1 : g.prevLongBlockDuration < opts.minBlock
    · rw [if_pos c1, ih]
      constructor
      · rintro ⟨p, hp, h⟩; exact ⟨p, List.mem_cons_of_mem _ hp, h⟩
      · rintro ⟨p, hp, hpass, h⟩
        rcases List.mem_cons.mp hp with rfl | hp
        · exact absurd hpass.1 (not_le.mpr c1)
        · exact ⟨p, hp, hpass, h⟩
    rw [if_neg c1]
    by_cases c2 : isRuntimeGoroutine g.prevLongBlockStack = true
    · rw [if_pos c2, ih]
      constructor
      · rintro ⟨p, hp, h⟩; exact ⟨p, List.mem_cons_of_mem _ hp, h⟩
      · rintro ⟨p, hp, hpass, h⟩
        rcases List.mem_cons.mp hp with rfl | hp
        · simp [hpass.2] at c2
        · exact ⟨p, hp, hpass, h⟩
    rw [if_neg c2]
    by_cases c3 : g.prevLongBlockLocation ∈ seen
    · rw [if_pos c3, ih]
      constructor
      · rintro ⟨p, hp, h⟩; exact ⟨p, List.mem_cons_of_mem _ hp, h⟩
      · rintro ⟨p, hp, hpass, hnotin, h⟩
        rcases List.mem_cons.mp hp with rfl | hp
        · exact absurd c3 hnotin
        · exact ⟨p, hp, hpass, hnotin, h⟩
    rw [if_neg c3]
    simp only [List.map_cons, List.mem_cons, ih]
    constructor
    · rintro (rfl | ⟨p, hp, hpass, hnotin, h⟩)
      · exact ⟨(gid, g), Or.inl rfl, ⟨not_lt.mp c1, by simpa using c2⟩, c3, rfl⟩
      · refine ⟨p, Or.inr hp, hpass, ?_, h⟩
        intro hmem
        exact hnotin (Or.inr hmem)
    · rintro ⟨p, hp, hpass, hnotin, h⟩
      rcases hp with rfl | hp
      · exact Or.inl (by rw [h]; rfl)
      · by_cases hloc : p.2.prevLongBlockLocation = g.prevLongBlockLocation
        · exact Or.inl (by rw [h, hloc]; rfl)
        · refine Or.inr ⟨p, hp, hpass, ?_, h⟩
          rintro (hh | hh)
          · exact hloc hh
          · exact hnotin hh

/-- C4: `detectTransientBlocks` emits `LongBlock/Medium` findings built from
the `prevLongBlock*` fields, exactly for goroutines with
`prev_long_duration ≥ opts.min_block` and a non-runtime-only peak stack that
are the first at their `prev_long_location`; every qualifying goroutine's
location is represented, and the output carries at most one finding per
location. -/
theorem detectTransientBlocks_spec (goroutines : List (Nat × goroutineState))
    (opts : Options) :
    (∀ f ∈ detectTransientBlocks goroutines opts,
        f.kind = Kind.longBlock ∧ f.confidence = Confidence.medium ∧
        ∃ p ∈ goroutines, f = transientFinding p.1 p.2 ∧
          opts.minBlock ≤ p.2.prevLongBlockDuration ∧
          isRuntimeGoroutine p.2.prevLongBlockStack = false) ∧
    (∀ p ∈ goroutines, opts.minBlock ≤ p.2.prevLongBlockDuration →
        isRuntimeGoroutine p.2.prevLongBlockStack = false →
        ∃ f ∈ detectTransientBlocks goroutines opts,
          f.location = p.2.prevLongBlockLocation) ∧
    ((detectTransientBlocks goroutines opts).map (fun f => f.location)).Nodup := by
  refine ⟨?_, ?_, transientLoop_locations_nodup⟩
  · intro f hf
    obtain ⟨p, hp, hfp, hpass, _⟩ := mem_transientLoop hf
    exact ⟨by rw [hfp]; rfl, by rw [hfp]; rfl, p, hp, hfp, hpass.1, hpass.2⟩
  · intro p hp h1 h2
    exact transientLoop_covers p hp ⟨h1, h2⟩ (List.not_mem_nil _)

/-- The goroutine state used in the order-dependence counterexample: a
completed 2 s sync block at a user location. -/
def sampleTransientState : goroutineState :=
  { prevLongBlockReason := str "sync", prevLongBlockStack := userStack,
    prevLongBlockFunction := str "main.worker",
    prevLongBlockLocation := str "main.go:15",
    prevLongBlockDuration := 2000000000 }

/-- C6, counterexample: two goroutines (ids 1 and 2) share the same
`prev_long_location`; the two snapshot orders are permutations of each other
(two runs over the same goroutine map), yet the projection
`(kind, goroutine_id, location, blocked_on)` of the `detectTransientBlocks`
output contains goroutine 1 in one run and not in the other: the
representative id follows map iteration order. -/
theorem transient_gid_counterexample :
    ([((1 : Nat), sampleTransientState), (2, sampleTransientState)]).Perm
      [((2 : Nat), sampleTransientState), (1, sampleTransientState)] ∧
    (Kind.longBlock, 1, str "main.go:15", str "sync") ∈
      (detectTransientBlocks [(1, sampleTransientState), (2, sampleTransientState)]
          sampleOpts).map (fun f => (f.kind, f.goroutineID, f.location, f.blockedOn)) ∧
    (Kind.longBlock, 1, str "main.go:15", str "sync") ∉
      (detectTransientBlocks [(2, sampleTransientState), (1, sampleTransientState)]
          sampleOpts).map (fun f => (f.kind, f.goroutineID, f.location, f.blockedOn)) := by
  refine ⟨List.Perm.swap _ _ _, by decide, by decide⟩

/-- C6, amended: across any two iteration orders of the same goroutine map,
`detectLeaks` findings are equal as sets under the full projection
`(kind, goroutine_id, location, blocked_on)`, and `detectTransientBlocks`
findings are equal as sets under `(kind, location)`; the representative
`goroutine_id` of a deduplicated transient-long-block finding is the first
qualifying goroutine in iteration order and may differ between runs. -/
theorem analyzer_perm_invariant (lastTime : Int) (opts : Options)
    (gs1 gs2 : List (Nat × goroutineState)) (hperm : gs1.Perm gs2) :
    (∀ x, x ∈ (detectLeaks gs1 lastTime opts).map
          (fun f => (f.kind, f.goroutineID, f.location, f.blockedOn)) ↔
        x ∈ (detectLeaks gs2 lastTime opts).map
          (fun f => (f.kind, f.goroutineID, f.location, f.blockedOn))) ∧
    (∀ x, x ∈ (detectTransientBlocks gs1 opts).map (fun f => (f.kind, f.location)) ↔
        x ∈ (detectTransientBlocks gs2 opts).map (fun f => (f.kind, f.location))) := by
  constructor
  · intro x
    simp only [detectLeaks, List.mem_map, List.mem_filterMap]
    constructor
    · rintro ⟨f, ⟨p, hp, hsome⟩, hx⟩
      exact ⟨f, ⟨p, hperm.mem_iff.mp hp, hsome⟩, hx⟩
    · rintro ⟨f, ⟨p, hp, hsome⟩, hx⟩
      exact ⟨f, ⟨p, hperm.mem_iff.mpr hp, hsome⟩, hx⟩
  · intro x
    rw [detectTransientBlocks, detectTransientBlocks,
      transientLoop_kindLoc_mem, transientLoop_kindLoc_mem]
    constructor
    · rintro ⟨p, hp, h⟩; exact ⟨p, hperm.mem_iff.mp hp, h⟩
    · rintro ⟨p, hp, h⟩; exact ⟨p, hperm.mem_iff.mpr hp, h⟩

/-- C6 witness: the amended invariance applied to the two concrete orders of
the two-goroutine snapshot, at the `(kind, location)` projection point of the
shared location. -/
theorem analyzer_perm_invariant_witness :
    ((Kind.longBlock, str "main.go:15") ∈
        (detectTransientBlocks [((1 : Nat), sampleTransientState), (2, sampleTransientState)]
            sampleOpts).map (fun f => (f.kind, f.location)) ↔
      (Kind.longBlock, str "main.go:15") ∈
        (detectTransientBlocks [((2 : Nat), sampleTransientState), (1, sampleTransientState)]
            sampleOpts).map (fun f => (f.kind, f.location))) :=
  (analyzer_perm_invariant 0 sampleOpts _ _ (List.Perm.swap _ _ _)).2 _

/-! ## Detector: orphan goroutines (`detectOrphans`) -/

/-- The body of `detectOrphans`'s loop for one goroutine: skip dead, blocked,
creation-unseen, or non-test-runtime-created goroutines, and goroutines whose
blocking stack is runtime-only while the creation function is empty;
otherwise emit `GoroutineLeak/Low` built from the creation fields. -/
def orphanFindingFor (gid : Nat) (g : goroutineState)
    (traceDuration : Int) : Option Finding :=
  if g.goroutineDead then none
  else if g.isBlocked then none
  else if !g.creationSeen then none
  else if isNonTestRuntimeGoroutine g.creationStack then none
  else if isRuntimeGoroutine g.stack ∧ g.creationFunction = [] then none
  else
    some { kind := .goroutineLeak, confidence := .low, goroutineID := gid,
           blockedOn := str "never ran (test exited before goroutine was scheduled)",
           blockedFor := traceDuration, stack := g.creationStack,
           function := g.creationFunction, location := g.creationLocation }

/-- `detectOrphans`: inactive at or above the 200 ms trace-duration gate,
otherwise one pass over the snapshot. -/
def detectOrphans (goroutines : List (Nat × goroutineState))
    (traceDuration : Int) : List Finding :=
  if (200000000 : Int) ≤ traceDuration then []
  else goroutines.filterMap (fun p => orphanFindingFor p.1 p.2 traceDuration)

lemma orphanFindingFor_some {gid : Nat} {g : goroutineState}
    {traceDuration : Int} {f : Finding}
    (h : orphanFindingFor gid g traceDuration = some f) :
    f.kind = Kind.goroutineLeak ∧ f.confidence = Confidence.low ∧
    f.goroutineID = gid ∧ f.blockedFor = traceDuration ∧
    f.stack = g.creationStack ∧ f.function = g.creationFunction ∧
    f.location = g.creationLocation := by
  unfold orphanFindingFor at h
  by_cases c1 : g.goroutineDead = true
  · rw [if_pos c1] at h; exact absurd h (by simp)
  rw [if_neg c1] at h
  by_cases c2 : g.isBlocked = true
  · rw [if_pos c2] at h; exact absurd h (by simp)
  rw [if_neg c2] at h
  by_cases c3 : (!g.creationSeen) = true
  · rw [if_pos c3] at h; exact absurd h (by simp)
  rw [if_neg c3] at h
  by_cases c4 : isNonTestRuntimeGoroutine g.creationStack = true
  · rw [if_pos c4] at h; exact absurd h (by simp)
  rw [if_neg c4] at h
  by_cases c5 : isRuntimeGoroutine g.stack ∧ g.creationFunction = []
  · rw [if_pos c5] at h; exact absurd h (by simp)
  rw [if_neg c5, Option.some_inj] at h
  subst h
  exact ⟨rfl, rfl, rfl, rfl, rfl, rfl, rfl⟩

/-- C5: `detectOrphans` returns no findings when `trace_duration ≥ 200 ms`;
every finding it does emit is `GoroutineLeak/Low`, and a non-empty output
implies `trace_duration < 200 ms`. -/
theorem detectOrphans_short_trace_only (goroutines : List (Nat × goroutineState))
    (traceDuration : Int) :
    ((200000000 : Int) ≤ traceDuration →
        detectOrphans goroutines traceDuration = []) ∧
    (∀ f ∈ detectOrphans goroutines traceDuration,
        f.kind = Kind.goroutineLeak ∧ f.confidence = Confidence.low) ∧
    (detectOrphans goroutines traceDuration ≠ [] →
        traceDuration < 200000000) := by
  refine ⟨?_, ?_, ?_⟩
  · intro h; rw [detectOrphans, if_pos h]
  · intro f hf
    unfold detectOrphans at hf
    by_cases hd : (200000000 : Int) ≤ traceDuration
    · rw [if_pos hd] at hf; exact absurd hf (List.not_mem_nil _)
    · rw [if_neg hd] at hf
      obtain ⟨p, _, hsome⟩ := List.mem_filterMap.mp hf
      obtain ⟨hk, hc, _⟩ := orphanFindingFor_some hsome
      exact ⟨hk, hc⟩
  · intro hne
    by_contra hlt
    push_neg at hlt
    exact hne (by rw [detectOrphans, if_pos hlt])

/-- C10: every `detectOrphans` finding has `blocked_for` equal to the whole
trace duration, and its stack, function and location come from the named
goroutine's creation fields. -/
theorem detectOrphans_creation_fields (goroutines : List (Nat × goroutineState))
    (traceDuration : Int) (f : Finding)
    (hf : f ∈ detectOrphans goroutines traceDuration) :
    f.blockedFor = traceDuration ∧
    ∃ p ∈ goroutines, f.goroutineID = p.1 ∧ f.stack = p.2.creationStack ∧
      f.function = p.2.creationFunction ∧ f.location = p.2.creationLocation := by
  unfold detectOrphans at hf
  by_cases hd : (200000000 : Int) ≤ traceDuration
  · rw [if_pos hd] at hf; exact absurd hf (List.not_mem_nil _)
  · rw [if_neg hd] at hf
    obtain ⟨p, hp, hsome⟩ := List.mem_filterMap.mp hf
    obtain ⟨_, _, hgid, hfor, hstack, hfn, hloc⟩ := orphanFindingFor_some hsome
    exact ⟨hfor, p, hp, hgid, hstack, hfn, hloc⟩

/-- A goroutine created by the test harness that never ran: creation seen,
testing-only creation stack, never blocked, never died. -/
def sampleOrphanState : goroutineState :=
  { creationSeen := true, creationStack := testCreationStack,
    creationFunction := str "main.spawner", creationLocation := str "main.go:7" }

/-- C10 witness: the creation-fields property applied to a concrete 100 ms
snapshot holding one never-scheduled goroutine. -/
theorem detectOrphans_creation_fields_witness :
    (Finding.mk Kind.goroutineLeak Confidence.low 3
        (str "never ran (test exited before goroutine was scheduled)")
        100000000 testCreationStack (str "main.spawner")
        (str "main.go:7")).blockedFor = 100000000 ∧
    ∃ p ∈ [((3 : Nat), sampleOrphanState)],
      (Finding.mk Kind.goroutineLeak Confidence.low 3
        (str "never ran (test exited before goroutine was scheduled)")
        100000000 testCreationStack (str "main.spawner")
        (str "main.go:7")).goroutineID = p.1 ∧
      (Finding.mk Kind.goroutineLeak Confidence.low 3
        (str "never ran (test exited before goroutine was scheduled)")
        100000000 testCreationStack (str "main.spawner")
        (str "main.go:7")).stack = p.2.creationStack ∧
      (Finding.mk Kind.goroutineLeak Confidence.low 3
        (str "never ran (test exited before goroutine was scheduled)")
        100000000 testCreationStack (str "main.spawner")
        (str "main.go:7")).function = p.2.creationFunction ∧
      (Finding.mk Kind.goroutineLeak Confidence.low 3
        (str "never ran (test exited before goroutine was scheduled)")
        100000000 testCreationStack (str "main.spawner")
        (str "main.go:7")).location = p.2.creationLocation :=
  detectOrphans_creation_fields [((3 : Nat), sampleOrphanState)] 100000000 _
    (by decide)

/-! ## Per-goroutine state engine
(`internal/detector/detector.go`, staged among the documents of
`src/testdata/etcd-leasehttp/bug_test.go`: the event loop of
`detector.Analyze`) -/

/-- The goroutine states of `golang.org/x/exp/trace` used by the engine:
`GoUndetermined`, `GoNotExist`, `GoRunnable`, `GoRunning`, `GoSyscall`,
`GoWaiting`. -/
inductive GState where
  | undetermined
  | notExist
  | runnable
  | running
  | syscall
  | waiting
deriving DecidableEq, Repr

/-- `trace.GoState.Executing()`: true for `GoRunning` and `GoSyscall`
(`GoRunnable` is not executing). -/
def GState.isExec : GState → Bool
  | .running => true
  | .syscall => true
  | _ => false

/-- One goroutine `StateTransition` event as the loop reads it: time,
goroutine id, from/to states, the block reason, and `extractStack(st.Stack)`
already applied (rendered string, top user function, top user location). -/
structure Event where
  time : Int
  gid : Nat
  fromS : GState
  toS : GState
  reason : Str
  stackStr : Str
  stackFn : Str
  stackLoc : Str

/-- The `if g.isBlocked && g.reason == "sync"` block of the unblock branch
(`detector.go`): capture the completed sync block into `prevLongBlock*` when
its duration exceeds the previous peak, push
`syncHistory[syncHistoryIdx % syncHistorySize]`, increment the index, and
refresh `prevSyncLocation`/`prevSyncEndTime`. -/
def captureSyncUnblock (g : goroutineState) (t : Int) : goroutineState :=
  if g.isBlocked = true ∧ g.reason = str "sync" then
    let dur := t - g.blockStart
    let g1 :=
      if g.prevLongBlockDuration < dur then
        { g with
          prevLongBlockReason := g.reason, prevLongBlockStack := g.stack,
          prevLongBlockFunction := g.function,
          prevLongBlockLocation := g.location, prevLongBlockDuration := dur }
      else g
    { g1 with
      syncHistory := g1.syncHistory.set (g1.syncHistoryIdx % syncHistorySize)
        { location := g1.location, endTime := t },
      syncHistoryIdx := g1.syncHistoryIdx + 1,
      prevSyncLocation := g1.location, prevSyncEndTime := t }
  else g

/-- The five clearing assignments at the end of the unblock branch:
`isBlocked`, `reason`, `stack`, `function` and `location` are reset;
`blockStart` is not among them. -/
def clearBlockedFields (g : goroutineState) : goroutineState :=
  { g with
    isBlocked := false, reason := [], stack := [], function := [], location := [] }

/-- The body of `Analyze`'s event loop for one goroutine event
(`detector.go`): record creation provenance on `from = GoNotExist`; mark
dead on `to = GoNotExist`; record the block on `from.Executing() and
to = GoWaiting`; on `from = GoWaiting and (to.Executing() or
to = GoRunnable)` run `captureSyncUnblock` and then the clearing
assignments. -/
def applyEvent (g : goroutineState) (ev : Event) : goroutineState :=
  let g :=
    if ev.fromS = .notExist then
      { g with
        creationStack := ev.stackStr, creationFunction := ev.stackFn,
        creationLocation := ev.stackLoc, creationSeen := true }
    else g
  let g := if ev.toS = .notExist then { g with goroutineDead := true } else g
  let g :=
    if ev.fromS.isExec = true ∧ ev.toS = .waiting then
      { g with
        isBlocked := true, reason := ev.reason, blockStart := ev.time,
        stack := ev.stackStr, function := ev.stackFn, location := ev.stackLoc }
    else g
  if ev.fromS = .waiting ∧ (ev.toS.isExec = true ∨ ev.toS = .runnable) then
    clearBlockedFields (captureSyncUnblock g ev.time)
  else g

/-- The engine's map lookup `goroutines[gid]`, with the fresh zero record for
a first-seen id (`if goroutines[gid] == nil { goroutines[gid] =
&goroutineState{} }`). -/
def lookupState (m : List (Nat × goroutineState)) (gid : Nat) : goroutineState :=
  match m.find? (fun p => p.1 = gid) with
  | some p => p.2
  | none => {}

/-- Storing one goroutine's updated record back into the map. -/
def setState (m : List (Nat × goroutineState)) (gid : Nat)
    (g : goroutineState) : List (Nat × goroutineState) :=
  match m with
  | [] => [(gid, g)]
  | p :: rest => if p.1 = gid then (gid, g) :: rest else p :: setState rest gid g

/-- One step of the state engine: apply the event to the (possibly fresh)
record of its goroutine id. -/
def stepEngine (m : List (Nat × goroutineState)) (ev : Event) :
    List (Nat × goroutineState) :=
  setState m ev.gid (applyEvent (lookupState m ev.gid) ev)

lemma lookupState_setState (m : List (Nat × goroutineState)) (gid : Nat)
    (g : goroutineState) : lookupState (setState m gid g) gid = g := by
  induction m with
  | nil => simp [setState, lookupState, List.find?]
  | cons p rest ih =>
    by_cases hp : p.1 = gid
    · simp [setState, hp, lookupState, List.find?]
    · simp only [setState, if_neg hp]
      rw [lookupState, List.find?]
      simp only [decide_eq_true_eq, hp, decide_False]
      exact ih

lemma captureSyncUnblock_blockStart (g : goroutineState) (t : Int) :
    (captureSyncUnblock g t).blockStart = g.blockStart := by
  simp only [captureSyncUnblock]
  split
  · split <;> rfl
  · rfl

lemma applyEvent_unblock (g : goroutineState) (ev : Event)
    (hfrom : ev.fromS = .waiting)
    (hto : ev.toS.isExec = true ∨ ev.toS = .runnable) :
    applyEvent g ev = clearBlockedFields (captureSyncUnblock g ev.time) := by
  have c1 : ¬(ev.fromS = GState.notExist) := by rw [hfrom]; decide
  have c2 : ¬(ev.toS = GState.notExist) := by
    intro h
    rw [h] at hto
    rcases hto with hex | hr
    · exact absurd hex (by decide)
    · exact absurd hr (by decide)
  have c3 : ¬(ev.fromS.isExec = true ∧ ev.toS = GState.waiting) := by
    rintro ⟨hx, _⟩
    rw [hfrom] at hx
    exact absurd hx (by decide)
  have c4 : ev.fromS = GState.waiting ∧
      (ev.toS.isExec = true ∨ ev.toS = GState.runnable) := ⟨hfrom, hto⟩
  rw [applyEvent, if_neg c1, if_neg c2, if_neg c3, if_pos c4]

/-- A goroutine currently blocked on `sync` with `block_start = 3`. -/
def sampleSyncBlockedState : goroutineState :=
  { isBlocked := true, reason := str "sync", blockStart := 3,
    stack := userStack, function := str "main.worker", location := str "main.go:15" }

/-- A concrete `GoWaiting→GoRunnable` wakeup event for goroutine 1. -/
def sampleUnblockEvent : Event :=
  { time := 5, gid := 1, fromS := .waiting, toS := .runnable,
    reason := [], stackStr := [], stackFn := [], stackLoc := [] }

/-- C3, counterexample: on a concrete `Waiting→Runnable` wakeup of a blocked
goroutine, the engine clears `is_blocked` but leaves `block_start` at its
old value 3 — `block_start`, one of the current-block fields, is not
cleared, refuting "its current-block fields cleared" as stated. -/
theorem engine_blockStart_counterexample :
    sampleUnblockEvent.fromS = GState.waiting ∧
    sampleUnblockEvent.toS = GState.runnable ∧
    (applyEvent sampleSyncBlockedState sampleUnblockEvent).isBlocked = false ∧
    (applyEvent sampleSyncBlockedState sampleUnblockEvent).blockStart = 3 := by
  refine ⟨rfl, rfl, by decide, by decide⟩

/-- C3, amended: on every transition from `Waiting` to an executing state
(`GoRunning`/`GoSyscall`) or to `GoRunnable` — the `Waiting→Runnable` case
included — the engine treats the goroutine as unblocked, clearing
`is_blocked`, `reason` and the blocking `stack`/`function`/`location`;
`block_start` is the one current-block field left unchanged (stale, but
gated by `is_blocked`). -/
theorem engine_unblock_clears (m : List (Nat × goroutineState)) (ev : Event)
    (hfrom : ev.fromS = .waiting)
    (hto : ev.toS.isExec = true ∨ ev.toS = .runnable) :
    (lookupState (stepEngine m ev) ev.gid).isBlocked = false ∧
    (lookupState (stepEngine m ev) ev.gid).reason = [] ∧
    (lookupState (stepEngine m ev) ev.gid).stack = [] ∧
    (lookupState (stepEngine m ev) ev.gid).function = [] ∧
    (lookupState (stepEngine m ev) ev.gid).location = [] ∧
    (lookupState (stepEngine m ev) ev.gid).blockStart =
      (lookupState m ev.gid).blockStart := by
  rw [stepEngine, lookupState_setState,
    applyEvent_unblock (lookupState m ev.gid) ev hfrom hto]
  exact ⟨rfl, rfl, rfl, rfl, rfl, captureSyncUnblock_blockStart _ _⟩

/-- C3 witness: the engine applied to a map holding the blocked goroutine 1
and the concrete `Waiting→Runnable` wakeup: the five blocking fields are
cleared and `block_start` is preserved. -/
theorem engine_unblock_clears_witness :
    (lookupState (stepEngine [(1, sampleSyncBlockedState)] sampleUnblockEvent)
      sampleUnblockEvent.gid).isBlocked = false ∧
    (lookupState (stepEngine [(1, sampleSyncBlockedState)] sampleUnblockEvent)
      sampleUnblockEvent.gid).reason = [] ∧
    (lookupState (stepEngine [(1, sampleSyncBlockedState)] sampleUnblockEvent)
      sampleUnblockEvent.gid).stack = [] ∧
    (lookupState (stepEngine [(1, sampleSyncBlockedState)] sampleUnblockEvent)
      sampleUnblockEvent.gid).function = [] ∧
    (lookupState (stepEngine [(1, sampleSyncBlockedState)] sampleUnblockEvent)
      sampleUnblockEvent.gid).location = [] ∧
    (lookupState (stepEngine [(1, sampleSyncBlockedState)] sampleUnblockEvent)
      sampleUnblockEvent.gid).blockStart =
      (lookupState [(1, sampleSyncBlockedState)] sampleUnblockEvent.gid).blockStart :=
  engine_unblock_clears [(1, sampleSyncBlockedState)] sampleUnblockEvent
    rfl (Or.inr rfl)

/-! ## Static lock-release findings in the structured output
(`cmd/run.go` and `internal/reporter/json.go`) -/

/-- `static.Finding`: function, location, message — no goroutine id field. -/
structure StaticFinding where
  function : Str
  location : Str
  message : Str
deriving DecidableEq, Repr

/-- The conversion in `cmd/run.go`: each static finding is appended as a
`detector.Finding` with `KindLockLeak`, `ConfidenceLow`, `GoroutineID: 0`. -/
def staticToDetectorFinding (sf : StaticFinding) : Finding :=
  { kind := .lockLeak, confidence := .low, goroutineID := 0,
    blockedOn := sf.message, function := sf.function, location := sf.location }

/-- Go `time.Duration.Round(m)`: round to the nearest multiple of `m`, half
away from zero (overflow saturation omitted; irrelevant at millisecond
granularity). -/
def goDurationRound (d m : Int) : Int :=
  if m ≤ 0 then d
  else
    if d < 0 then
      let r := -(d.tmod m)
      if r + r < m then d + r else d - m + r
    else
      let r := d.tmod m
      if r + r < m then d - r else d + m - r

/-- Go `time.Duration.Milliseconds()`: truncated division by 10^6. -/
def goMilliseconds (d : Int) : Int := d.tdiv 1000000

/-- `reporter.jsonFinding`: the struct serialized for each finding. -/
structure jsonFinding where
  kind : Str
  confidence : Str
  goroutineID : Nat
  blockedOn : Str
  blockedForMs : Int
  function : Str
  location : Str
  stack : Str
  explanation : Str
deriving DecidableEq, Repr

/-- The per-finding conversion in `reporter.WriteJSON` (explanation left
empty: it is reset before encoding and attached top-level). -/
def toJsonFinding (f : Finding) : jsonFinding :=
  { kind := f.kind.render, confidence := f.confidence.render,
    goroutineID := f.goroutineID, blockedOn := f.blockedOn,
    blockedForMs := goMilliseconds (goDurationRound f.blockedFor 1000000),
    function := f.function, location := f.location, stack := f.stack,
    explanation := [] }

/-- The JSON keys `encoding/json` emits for a `jsonFinding`: `kind`,
`confidence`, `goroutine_id`, `blocked_on` and `blocked_for_ms` always
(no `omitempty` on their tags), `function`, `location`, `stack` and
`explanation` only when non-empty (`omitempty`). -/
def jsonFindingKeys (jf : jsonFinding) : List Str :=
  [str "kind", str "confidence", str "goroutine_id", str "blocked_on",
    str "blocked_for_ms"] ++
  (if jf.function = [] then [] else [str "function"]) ++
  (if jf.location = [] then [] else [str "location"]) ++
  (if jf.stack = [] then [] else [str "stack"]) ++
  (if jf.explanation = [] then [] else [str "explanation"])

/-- A concrete static lock-release finding. -/
def sampleStaticFinding : StaticFinding :=
  { function := str "pkg.BadLock", location := str "bad.go:10",
    message := str "mutex Lock() acquired but not released on all exit paths" }

/-- C9, counterexample: the concrete static finding does get kind `lock_leak`
and confidence `low`, but its structured JSON output carries the key
`goroutine_id` (the field has no `omitempty` tag), refuting "no
`goroutine_id` in the structured output" as stated. -/
theorem lockleak_goroutineid_counterexample :
    (staticToDetectorFinding sampleStaticFinding).kind = Kind.lockLeak ∧
    (staticToDetectorFinding sampleStaticFinding).confidence = Confidence.low ∧
    str "goroutine_id" ∈
      jsonFindingKeys (toJsonFinding (staticToDetectorFinding sampleStaticFinding)) := by
  refine ⟨rfl, rfl, by decide⟩

/-- C9, amended: every static lock-release finding reaches the structured
output with kind `lock_leak`, confidence `low` and `goroutine_id = 0`; the
JSON object always carries the `goroutine_id` key (serialized as `0` for
static findings) because that field has no `omitempty` tag. -/
theorem lockleak_json_fields (sf : StaticFinding) :
    (staticToDetectorFinding sf).kind = Kind.lockLeak ∧
    (staticToDetectorFinding sf).confidence = Confidence.low ∧
    (staticToDetectorFinding sf).goroutineID = 0 ∧
    (toJsonFinding (staticToDetectorFinding sf)).kind = str "lock_leak" ∧
    (toJsonFinding (staticToDetectorFinding sf)).confidence = str "low" ∧
    (toJsonFinding (staticToDetectorFinding sf)).goroutineID = 0 ∧
    str "goroutine_id" ∈
      jsonFindingKeys (toJsonFinding (staticToDetectorFinding sf)) := by
  refine ⟨rfl, rfl, rfl, rfl, rfl, rfl, ?_⟩
  rw [jsonFindingKeys]
  exact List.mem_append_left _ (List.mem_append_left _ (List.mem_append_left _
    (List.mem_append_left _ (by decide))))

/-! ## Static lock-release analyzer (`internal/static`)

The SSA control-flow graph is embedded structurally: call instructions carry
their callee's classification (`isLockCall` / `isUnlockCall` applied to the
static callee; dynamic/interface callees classify as `other`) and the
rendered `file:line` of their position; blocks carry instruction lists and
successor indices; `fn.Blocks[i].Index = i`. -/

/-- Classification of a call's static callee by `isLockCall`/`isUnlockCall`. -/
inductive Callee where
  | lock
  | unlock
  | other
deriving DecidableEq, Repr

/-- One SSA instruction as the analyzer sees it: an `*ssa.Call` (with callee
class and rendered position), an `*ssa.Defer` (with callee class), or
anything else. -/
inductive Instr where
  | call (c : Callee) (pos : Str)
  | deferCall (c : Callee)
  | other
deriving DecidableEq, Repr

/-- An `*ssa.BasicBlock`: instructions and successor block indices. -/
structure BasicBlock where
  instrs : List Instr
  succs : List Nat
deriving DecidableEq, Repr

/-- An `*ssa.Function`: its rendered name and its blocks (block `i` has
`Index = i`). -/
structure Fn where
  name : Str
  blocks : List BasicBlock
deriving DecidableEq, Repr

/-- `lockSite`: where a `Lock()` call appears (block index, instruction
index within the block, rendered source position). -/
structure lockSite where
  blockIdx : Nat
  idx : Nat
  pos : Str
deriving DecidableEq, Repr

/-- The lock sites contributed by one block's instructions, starting at
instruction index `ii`. -/
def lockSitesInInstrs (bi : Nat) : Nat → List Instr → List lockSite
  | _, [] => []
  | ii, instr :: rest =>
    match instr with
    | .call .lock p => ⟨bi, ii, p⟩ :: lockSitesInInstrs bi (ii + 1) rest
    | _ => lockSitesInInstrs bi (ii + 1) rest

/-- Phase 1 of `analyzeFn`: all `Lock()` sites, in block order. -/
def lockSitesAux : Nat → List BasicBlock → List lockSite
  | _, [] => []
  | bi, b :: rest => lockSitesInInstrs bi 0 b.instrs ++ lockSitesAux (bi + 1) rest

/-- All `Lock()` sites of a function. -/
def lockSites (fn : Fn) : List lockSite := lockSitesAux 0 fn.blocks

/-- The instruction indices of `Unlock()` calls in one block
(`unlockIdx[b.Index]` of the source), starting at index `ii`. -/
def unlockIdxsAux : Nat → List Instr → List Nat
  | _, [] => []
  | ii, instr :: rest =>
    match instr with
    | .call .unlock _ => ii :: unlockIdxsAux (ii + 1) rest
    | _ => unlockIdxsAux (ii + 1) rest

/-- `unlockIdx` for one block. -/
def unlockIdxs (b : BasicBlock) : List Nat := unlockIdxsAux 0 b.instrs

/-- An `*ssa.Defer` of an unlock callee. -/
def isDeferUnlock : Instr → Bool
  | .deferCall .unlock => true
  | _ => false

/-- `hasDeferUnlock` of phase 1: some block defers an unlock. -/
def hasDeferUnlock (fn : Fn) : Bool :=
  fn.blocks.any (fun b => b.instrs.any isDeferUnlock)

/-- Block lookup by index (total, with an empty default; well-formed
functions never reach the default). -/
def blockAt (fn : Fn) (i : Nat) : BasicBlock := fn.blocks.getD i ⟨[], []⟩

/-- `hasUnlockAfterIdx`: the block has an `Unlock()` at instruction index
`≥ fromIdx`. -/
def hasUnlockAfterIdx (b : BasicBlock) (fromIdx : Nat) : Bool :=
  (unlockIdxs b).any (fun ui => fromIdx ≤ ui)

/-- The enqueue loop of the BFS: mark-and-append each not-yet-visited
successor, in order. -/
def enqueueAll (visited queue : List Nat) : List Nat → List Nat × List Nat
  | [] => (visited, queue)
  | s :: rest =>
    if s ∈ visited then enqueueAll visited queue rest
    else enqueueAll (s :: visited) (queue ++ [s]) rest

/-- The BFS worklist loop of `pathExistsWithoutUnlock`: pop the queue head;
a block with an `Unlock()` consumes the lock-held state; an exit block
without one witnesses a path; otherwise propagate to successors. The fuel
only renders the recursion structural; the entry point supplies enough for
every well-formed graph. -/
def bfsLoop (fn : Fn) : Nat → List Nat → List Nat → Bool
  | 0, _, _ => false
  | _ + 1, _, [] => false
  | fuel + 1, visited, cur :: rest =>
    if !(unlockIdxs (blockAt fn cur)).isEmpty then bfsLoop fn fuel visited rest
    else if (blockAt fn cur).succs = [] then true
    else
      let vq := enqueueAll visited rest (blockAt fn cur).succs
      bfsLoop fn fuel vq.1 vq.2

/-- `pathExistsWithoutUnlock`: an `Unlock()` after the `Lock()` in its own
block makes the site safe; otherwise BFS from the lock block's successors. -/
def pathExistsWithoutUnlock (fn : Fn) (ls : lockSite) : Bool :=
  if hasUnlockAfterIdx (blockAt fn ls.blockIdx) (ls.idx + 1) then false
  else
    let init := enqueueAll [] [] (blockAt fn ls.blockIdx).succs
    bfsLoop fn (fn.blocks.length + init.2.length + 1) init.1 init.2

/-- The finding `analyzeFn` reports for one unsafe lock site. -/
def mkStaticFinding (fn : Fn) (ls : lockSite) : StaticFinding :=
  { function := fn.name, location := ls.pos,
    message := str "mutex Lock() acquired but not released on all exit paths" }

/-- `analyzeFn`: skip empty functions, functions without locks, and functions
with a deferred unlock; report every lock site from which the BFS finds an
unlock-free path to an exit. -/
def analyzeFn (fn : Fn) : List StaticFinding :=
  if fn.blocks = [] then []
  else if lockSites fn = [] ∨ hasDeferUnlock fn = true then []
  else
    (lockSites fn).filterMap (fun ls =>
      if pathExistsWithoutUnlock fn ls then some (mkStaticFinding fn ls) else none)

/-- Written from the claim's words: from block `v`, a control-flow path to a
function exit (a block with no successors) that passes through no block
containing an `Unlock()`. -/
inductive ReachesExit (fn : Fn) : Nat → Prop where
  | exit (v : Nat) (hfree : unlockIdxs (blockAt fn v) = [])
      (hsuccs : (blockAt fn v).succs = []) : ReachesExit fn v
  | step (v w : Nat) (hfree : unlockIdxs (blockAt fn v) = [])
      (hw : w ∈ (blockAt fn v).succs) (hr : ReachesExit fn w) : ReachesExit fn v

/-- Written from the claim's words, as stated: no `Unlock()` later in the
lock's own block, and a path from the `Lock()` instruction to a function
exit avoiding `Unlock()` — either the lock's own block is itself an exit, or
some successor of it reaches an exit through unlock-free blocks. -/
def claimPathProperty (fn : Fn) (ls : lockSite) : Prop :=
  hasUnlockAfterIdx (blockAt fn ls.blockIdx) (ls.idx + 1) = false ∧
  ((blockAt fn ls.blockIdx).succs = [] ∨
    ∃ j ∈ (blockAt fn ls.blockIdx).succs, ReachesExit fn j)

/-- The amended path property: as the claim, except that the path must leave
the lock's block — it starts at one of its successors, so a lock in an exit
block is never reported. -/
def succPathProperty (fn : Fn) (ls : lockSite) : Prop :=
  hasUnlockAfterIdx (blockAt fn ls.blockIdx) (ls.idx + 1) = false ∧
  ∃ j ∈ (blockAt fn ls.blockIdx).succs, ReachesExit fn j

/-- Well-formedness of the SSA graph: every successor index denotes a block
of the function. -/
def WFfn (fn : Fn) : Prop :=
  ∀ b ∈ fn.blocks, ∀ s ∈ b.succs, s < fn.blocks.length

instance (fn : Fn) : Decidable (WFfn fn) := by
  unfold WFfn; infer_instance

/-- A function whose single block acquires the lock and falls off the end of
the function: the lock block is itself an exit block, with no unlock
anywhere. -/
def exitLockFn : Fn :=
  { name := str "pkg.LockNoUnlock",
    blocks := [{ instrs := [Instr.call .lock (str "a.go:5")], succs := [] }] }

/-- The single lock site of `exitLockFn`. -/
def exitLockSite : lockSite := { blockIdx := 0, idx := 0, pos := str "a.go:5" }

/-- C7, counterexample: `exitLockFn` has no deferred unlock and, as the claim
reads, a path from the `Lock()` to a function exit with no `Unlock()` (the
lock's own block has no successors), yet `analyzeFn` reports nothing — the
BFS starts at the lock block's successors, so a lock in an exit block is
never reported. -/
theorem analyzeFn_exitblock_counterexample :
    hasDeferUnlock exitLockFn = false ∧
    exitLockSite ∈ lockSites exitLockFn ∧
    claimPathProperty exitLockFn exitLockSite ∧
    analyzeFn exitLockFn = [] := by
  refine ⟨by decide, by decide, ⟨by decide, Or.inl (by decide)⟩, by decide⟩

lemma enqueueAll_queue_sub :
    ∀ (succs visited queue : List Nat) (v : Nat),
      v ∈ (enqueueAll visited queue succs).2 → v ∈ queue ∨ v ∈ succs := by
  intro succs
  induction succs with
  | nil => intro visited queue v hv; exact Or.inl hv
  | cons s rest ih =>
    intro visited queue v hv
    rw [enqueueAll] at hv
    by_cases hs : s ∈ visited
    · rw [if_pos hs] at hv
      rcases ih _ _ _ hv with h | h
      · exact Or.inl h
      · exact Or.inr (List.mem_cons_of_mem _ h)
    · rw [if_neg hs] at hv
      rcases ih _ _ _ hv with h | h
      · rcases List.mem_append.mp h with h | h
        · exact Or.inl h
        · exact Or.inr (List.mem_cons.mpr (Or.inl (List.mem_singleton.mp h)))
      · exact Or.inr (List.mem_cons_of_mem _ h)

lemma enqueueAll_visited_mono :
    ∀ (succs visited queue : List Nat) (v : Nat),
      v ∈ visited → v ∈ (enqueueAll visited queue succs).1 := by
  intro succs
  induction succs with
  | nil => intro visited queue v hv; exact hv
  | cons s rest ih =>
    intro visited queue v hv
    rw [enqueueAll]
    by_cases hs : s ∈ visited
    · rw [if_pos hs]; exact ih _ _ _ hv
    · rw [if_neg hs]; exact ih _ _ _ (List.mem_cons_of_mem _ hv)

lemma enqueueAll_visited_sub :
    ∀ (succs visited queue : List Nat) (v : Nat),
      v ∈ (enqueueAll visited queue succs).1 → v ∈ visited ∨ v ∈ succs := by
  intro succs
  induction succs with
  | nil => intro visited queue v hv; exact Or.inl hv
  | cons s rest ih =>
    intro visited queue v hv
    rw [enqueueAll] at hv
    by_cases hs : s ∈ visited
    · rw [if_pos hs] at hv
      rcases ih _ _ _ hv with h | h
      · exact Or.inl h
      · exact Or.inr (List.mem_cons_of_mem _ h)
    · rw [if_neg hs] at hv
      rcases ih _ _ _ hv with h | h
      · rcases List.mem_cons.mp h with rfl | h
        · exact Or.inr (List.mem_cons_self _ _)
        · exact Or.inl h
      · exact Or.inr (List.mem_cons_of_mem _ h)

lemma enqueueAll_succs_visited :
    ∀ (succs visited queue : List Nat) (s : Nat),
      s ∈ succs → s ∈ (enqueueAll visited queue succs).1 := by
  intro succs
  induction succs with
  | nil => intro visited queue s hs; exact absurd hs (List.not_mem_nil _)
  | cons a rest ih =>
    intro visited queue s hs
    rw [enqueueAll]
    by_cases ha : a ∈ visited
    · rw [if_pos ha]
      rcases List.mem_cons.mp hs with rfl | hs
      · exact enqueueAll_visited_mono _ _ _ _ ha
      · exact ih _ _ _ hs
    · rw [if_neg ha]
      rcases List.mem_cons.mp hs with rfl | hs
      · exact enqueueAll_visited_mono _ _ _ _ (List.mem_cons_self _ _)
      · exact ih _ _ _ hs

lemma enqueueAll_queue_mono :
    ∀ (succs visited queue : List Nat) (v : Nat),
      v ∈ queue → v ∈ (enqueueAll visited queue succs).2 := by
  intro succs
  induction succs with
  | nil => intro visited queue v hv; exact hv
  | cons s rest ih =>
    intro visited queue v hv
    rw [enqueueAll]
    by_cases hs : s ∈ visited
    · rw [if_pos hs]; exact ih _ _ _ hv
    · rw [if_neg hs]; exact ih _ _ _ (List.mem_append_left _ hv)

lemma bfsLoop_sound (fn : Fn) :
    ∀ (fuel : Nat) (visited queue : List Nat),
      bfsLoop fn fuel visited queue = true →
      ∃ v ∈ queue, ReachesExit fn v := by
  intro fuel
  induction fuel with
  | zero => intro visited queue h; simp [bfsLoop] at h
  | succ fuel ih =>
    intro visited queue h
    match queue with
    | [] => simp [bfsLoop] at h
    | cur :: rest =>
      rw [bfsLoop] at h
      by_cases hfree : unlockIdxs (blockAt fn cur) = []
      · rw [hfree] at h
        simp only [List.isEmpty_nil, Bool.not_true, Bool.false_eq_true,
          if_false] at h
        by_cases hsuccs : (blockAt fn cur).succs = []
        · exact ⟨cur, List.mem_cons_self _ _, .exit cur hfree hsuccs⟩
        · rw [if_neg hsuccs] at h
          obtain ⟨v, hv, hre⟩ := ih _ _ h
          rcases enqueueAll_queue_sub _ _ _ _ hv with hvr | hvs
          · exact ⟨v, List.mem_cons_of_mem _ hvr, hre⟩
          · exact ⟨cur, List.mem_cons_self _ _, .step cur v hfree hvs hre⟩
      · have hne : (!(unlockIdxs (blockAt fn cur)).isEmpty) = true := by
          simpa [List.isEmpty_iff] using hfree
        rw [if_pos hne] at h
        obtain ⟨v, hv, hre⟩ := ih _ _ h
        exact ⟨v, List.mem_cons_of_mem _ hv, hre⟩

/-- The number of block indices below `n` not yet visited: the BFS's
termination measure together with the queue length. -/
def unvisitedCount (n : Nat) (visited : List Nat) : Nat :=
  ((List.range n).filter (fun i => !(decide (i ∈ visited)))).length

lemma filter_ne_length {s : Nat} :
    ∀ {l : List Nat}, s ∈ l → l.Nodup →
      (l.filter (fun i => !(decide (i = s)))).length + 1 = l.length := by
  intro l
  induction l with
  | nil => intro h; exact absurd h (List.not_mem_nil _)
  | cons a t ih =>
    intro hs hnd
    obtain ⟨hat, hndt⟩ := List.nodup_cons.mp hnd
    rcases List.mem_cons.mp hs with rfl | hs
    · have hkeep : t.filter (fun i => !(decide (i = s))) = t := by
        apply List.filter_eq_self.mpr
        intro b hb
        simp only [Bool.not_eq_true', decide_eq_false_iff_not]
        exact fun h => hat (h ▸ hb)
      simp [List.filter_cons, hkeep]
    · have has : ¬(a = s) := fun h => hat (h ▸ hs)
      have hrec := ih hs hndt
      have hd : (decide (a = s)) = false := decide_eq_false has
      simp only [List.filter_cons, hd, Bool.not_false, if_true, List.length_cons]
      omega

lemma unvisited_insert {n s : Nat} {visited : List Nat} (hs : s < n)
    (hnot : s ∉ visited) :
    unvisitedCount n (s :: visited) + 1 = unvisitedCount n visited := by
  unfold unvisitedCount
  have h1 : ((List.range n).filter (fun i => !(decide (i ∈ s :: visited)))) =
      ((List.range n).filter (fun i => !(decide (i ∈ visited)))).filter
        (fun i => !(decide (i = s))) := by
    rw [List.filter_filter]
    apply List.filter_congr
    intro i _
    by_cases h1 : i = s <;> by_cases h2 : i ∈ visited <;> simp [h1, h2]
  rw [h1]
  have hmem : s ∈ (List.range n).filter (fun i => !(decide (i ∈ visited))) :=
    List.mem_filter.mpr ⟨List.mem_range.mpr hs, by simp [hnot]⟩
  have hnodup : ((List.range n).filter (fun i => !(decide (i ∈ visited)))).Nodup :=
    (List.nodup_range n).filter _
  exact filter_ne_length hmem hnodup

lemma unvisitedCount_le (n : Nat) (visited : List Nat) :
    unvisitedCount n visited ≤ n := by
  calc unvisitedCount n visited ≤ (List.range n).length := List.length_filter_le _ _
    _ = n := List.length_range n

lemma enqueueAll_measure (n : Nat) :
    ∀ (succs visited queue : List Nat), (∀ s ∈ succs, s < n) →
      unvisitedCount n (enqueueAll visited queue succs).1 +
        (enqueueAll visited queue succs).2.length =
      unvisitedCount n visited + queue.length := by
  intro succs
  induction succs with
  | nil => intro visited queue _; rfl
  | cons s rest ih =>
    intro visited queue h
    rw [enqueueAll]
    by_cases hs : s ∈ visited
    · rw [if_pos hs]
      exact ih _ _ (fun x hx => h x (List.mem_cons_of_mem _ hx))
    · rw [if_neg hs]
      have h1 := ih (s :: visited) (queue ++ [s])
        (fun x hx => h x (List.mem_cons_of_mem _ hx))
      have h2 := unvisited_insert (h s (List.mem_cons_self _ _)) hs
      rw [h1, List.length_append]
      simp only [List.length_singleton]
      omega

lemma enqueueAll_nodup :
    ∀ (succs visited queue : List Nat), queue.Nodup →
      (∀ v ∈ queue, v ∈ visited) → (enqueueAll visited queue succs).2.Nodup := by
  intro succs
  induction succs with
  | nil => intro visited queue hnd _; exact hnd
  | cons s rest ih =>
    intro visited queue hnd hqv
    rw [enqueueAll]
    by_cases hs : s ∈ visited
    · rw [if_pos hs]; exact ih _ _ hnd hqv
    · rw [if_neg hs]
      apply ih
      · refine List.Nodup.append hnd (List.nodup_singleton s) ?_
        intro v hv hv1
        rw [List.mem_singleton] at hv1
        exact hs (hv1 ▸ hqv v hv)
      · intro v hv
        rcases List.mem_append.mp hv with hv | hv
        · exact List.mem_cons_of_mem _ (hqv v hv)
        · rw [List.mem_singleton] at hv
          exact hv ▸ List.mem_cons_self _ _

lemma enqueueAll_queue_in_visited :
    ∀ (succs visited queue : List Nat), (∀ v ∈ queue, v ∈ visited) →
      ∀ v ∈ (enqueueAll visited queue succs).2,
        v ∈ (enqueueAll visited queue succs).1 := by
  intro succs
  induction succs with
  | nil => intro visited queue hqv v hv; exact hqv v hv
  | cons s rest ih =>
    intro visited queue hqv
    rw [enqueueAll]
    by_cases hs : s ∈ visited
    · rw [if_pos hs]; exact ih _ _ hqv
    · rw [if_neg hs]
      apply ih
      intro v hv
      rcases List.mem_append.mp hv with hv | hv
      · exact List.mem_cons_of_mem _ (hqv v hv)
      · rw [List.mem_singleton] at hv
        exact hv ▸ List.mem_cons_self _ _

lemma enqueueAll_visited_to_queue :
    ∀ (succs visited queue : List Nat) (v : Nat),
      v ∈ (enqueueAll visited queue succs).1 →
      v ∈ visited ∨ v ∈ (enqueueAll visited queue succs).2 := by
  intro succs
  induction succs with
  | nil => intro visited queue v hv; exact Or.inl hv
  | cons s rest ih =>
    intro visited queue v hv
    rw [enqueueAll] at hv ⊢
    by_cases hs : s ∈ visited
    · rw [if_pos hs] at hv ⊢; exact ih _ _ _ hv
    · rw [if_neg hs] at hv ⊢
      rcases ih _ _ _ hv with hv1 | hv1
      · rcases List.mem_cons.mp hv1 with rfl | hv1
        · exact Or.inr (enqueueAll_queue_mono _ _ _ _
            (List.mem_append_right _ (List.mem_singleton.mpr rfl)))
        · exact Or.inl hv1
      · exact Or.inr hv1

lemma getD_mem : ∀ (l : List BasicBlock) (i : Nat), i < l.length →
    l.getD i ⟨[], []⟩ ∈ l := by
  intro l
  induction l with
  | nil => intro i h; exact absurd h (Nat.not_lt_zero i)
  | cons b t ih =>
    intro i h
    cases i with
    | zero => rw [List.getD_cons_zero]; exact List.mem_cons_self _ _
    | succ j =>
      rw [List.getD_cons_succ]
      exact List.mem_cons_of_mem _ (ih j (by simpa using h))

lemma blockAt_mem {fn : Fn} {i : Nat} (h : i < fn.blocks.length) :
    blockAt fn i ∈ fn.blocks :=
  getD_mem fn.blocks i h

lemma witness_in_queue (fn : Fn) (visited queue : List Nat)
    (hI2 : ∀ u ∈ visited, u ∉ queue → unlockIdxs (blockAt fn u) = [] →
      ∀ w ∈ (blockAt fn u).succs, w ∈ visited)
    (hI3 : ∀ u ∈ visited, u ∉ queue →
      ¬(unlockIdxs (blockAt fn u) = [] ∧ (blockAt fn u).succs = [])) :
    ∀ w : Nat, ReachesExit fn w → w ∈ visited →
      ∃ v ∈ queue, ReachesExit fn v := by
  intro w hre
  induction hre with
  | exit v hfree hsuccs =>
    intro hv
    by_cases hq : v ∈ queue
    · exact ⟨v, hq, .exit v hfree hsuccs⟩
    · exact absurd ⟨hfree, hsuccs⟩ (hI3 v hv hq)
  | step v u hfree hu hre ih =>
    intro hv
    by_cases hq : v ∈ queue
    · exact ⟨v, hq, .step v u hfree hu hre⟩
    · exact ih (hI2 v hv hq hfree u hu)

lemma bfsLoop_complete (fn : Fn) (hwf : WFfn fn) :
    ∀ (fuel : Nat) (visited queue : List Nat),
      unvisitedCount fn.blocks.length visited + queue.length < fuel →
      queue.Nodup →
      (∀ v ∈ queue, v ∈ visited) →
      (∀ v ∈ queue, v < fn.blocks.length) →
      (∀ u ∈ visited, u ∉ queue → unlockIdxs (blockAt fn u) = [] →
        ∀ w ∈ (blockAt fn u).succs, w ∈ visited) →
      (∀ u ∈ visited, u ∉ queue →
        ¬(unlockIdxs (blockAt fn u) = [] ∧ (blockAt fn u).succs = [])) →
      (∃ w ∈ visited, ReachesExit fn w) →
      bfsLoop fn fuel visited queue = true := by
  intro fuel
  induction fuel with
  | zero =>
    intro visited queue hfuel
    exact absurd hfuel (Nat.not_lt_zero _)
  | succ fuel ih =>
    intro visited queue hfuel hnd hqv hqlt hI2 hI3 hwit
    obtain ⟨w, hwv, hwre⟩ := hwit
    obtain ⟨v0, hv0, _⟩ := witness_in_queue fn visited queue hI2 hI3 w hwre hwv
    cases queue with
    | nil => exact absurd hv0 (List.not_mem_nil _)
    | cons cur rest =>
      rw [bfsLoop]
      by_cases hfree : unlockIdxs (blockAt fn cur) = []
      · rw [hfree]
        simp only [List.isEmpty_nil, Bool.not_true, Bool.false_eq_true, if_false]
        by_cases hsuccs : (blockAt fn cur).succs = []
        · rw [if_pos hsuccs]
        · rw [if_neg hsuccs]
          show bfsLoop fn fuel (enqueueAll visited rest (blockAt fn cur).succs).1
            (enqueueAll visited rest (blockAt fn cur).succs).2 = true
          have hcur_lt : cur < fn.blocks.length := hqlt cur (List.mem_cons_self _ _)
          have hsub_lt : ∀ s ∈ (blockAt fn cur).succs, s < fn.blocks.length :=
            hwf _ (blockAt_mem hcur_lt)
          refine ih _ _ ?_ ?_ ?_ ?_ ?_ ?_ ?_
          · have hm := enqueueAll_measure fn.blocks.length
              (blockAt fn cur).succs visited rest hsub_lt
            simp only [List.length_cons] at hfuel
            omega
          · exact enqueueAll_nodup _ _ _ (List.Nodup.of_cons hnd)
              (fun v hv => hqv v (List.mem_cons_of_mem _ hv))
          · exact enqueueAll_queue_in_visited _ _ _
              (fun v hv => hqv v (List.mem_cons_of_mem _ hv))
          · intro v hv
            rcases enqueueAll_queue_sub _ _ _ _ hv with h | h
            · exact hqlt v (List.mem_cons_of_mem _ h)
            · exact hsub_lt v h
          · intro u hu hunq hufree w' hw'
            by_cases huc : u = cur
            · subst huc
              exact enqueueAll_succs_visited _ _ _ _ hw'
            · rcases enqueueAll_visited_to_queue _ _ _ _ hu with huv | huq
              · have hunq_old : u ∉ cur :: rest := by
                  intro hmem
                  rcases List.mem_cons.mp hmem with h | h
                  · exact huc h
                  · exact hunq (enqueueAll_queue_mono _ _ _ _ h)
                exact enqueueAll_visited_mono _ _ _ _
                  (hI2 u huv hunq_old hufree w' hw')
              · exact absurd huq hunq
          · intro u hu hunq
            by_cases huc : u = cur
            · subst huc
              rintro ⟨_, hsu⟩
              exact hsuccs hsu
            · rcases enqueueAll_visited_to_queue _ _ _ _ hu with huv | huq
              · have hunq_old : u ∉ cur :: rest := by
                  intro hmem
                  rcases List.mem_cons.mp hmem with h | h
                  · exact huc h
                  · exact hunq (enqueueAll_queue_mono _ _ _ _ h)
                exact hI3 u huv hunq_old
              · exact absurd huq hunq
          · exact ⟨w, enqueueAll_visited_mono _ _ _ _ hwv, hwre⟩
      · have hne : (!(unlockIdxs (blockAt fn cur)).isEmpty) = true := by
          cases hE : (unlockIdxs (blockAt fn cur)).isEmpty
          · rfl
          · exact absurd (List.isEmpty_iff.mp hE) hfree
        rw [if_pos hne]
        refine ih visited rest ?_ ?_ ?_ ?_ ?_ ?_ ?_
        · simp only [List.length_cons] at hfuel
          omega
        · exact List.Nodup.of_cons hnd
        · exact fun v hv => hqv v (List.mem_cons_of_mem _ hv)
        · exact fun v hv => hqlt v (List.mem_cons_of_mem _ hv)
        · intro u hu hunr hufree w' hw'
          by_cases huc : u = cur
          · exact absurd (huc ▸ hufree) hfree
          · have hold : u ∉ cur :: rest := by
              intro hmem
              rcases List.mem_cons.mp hmem with h | h
              · exact huc h
              · exact hunr h
            exact hI2 u hu hold hufree w' hw'
        · intro u hu hunr
          by_cases huc : u = cur
          · subst huc
            rintro ⟨hfree', _⟩
            exact hfree hfree'
          · have hold : u ∉ cur :: rest := by
              intro hmem
              rcases List.mem_cons.mp hmem with h | h
              · exact huc h
              · exact hunr h
            exact hI3 u hu hold
        · exact ⟨w, hwv, hwre⟩

lemma pathExists_iff (fn : Fn) (hwf : WFfn fn) (ls : lockSite)
    (hblk : ls.blockIdx < fn.blocks.length) :
    pathExistsWithoutUnlock fn ls = true ↔ succPathProperty fn ls := by
  unfold pathExistsWithoutUnlock succPathProperty
  by_cases hafter : hasUnlockAfterIdx (blockAt fn ls.blockIdx) (ls.idx + 1) = true
  · rw [if_pos hafter]
    simp [hafter]
  · have hafter' : hasUnlockAfterIdx (blockAt fn ls.blockIdx) (ls.idx + 1) = false := by
      cases hE : hasUnlockAfterIdx (blockAt fn ls.blockIdx) (ls.idx + 1)
      · rfl
      · exact absurd hE hafter
    rw [if_neg hafter]
    constructor
    · intro h
      obtain ⟨v, hv, hre⟩ := bfsLoop_sound fn _ _ _ h
      rcases enqueueAll_queue_sub _ _ _ _ hv with h0 | hs
      · exact absurd h0 (List.not_mem_nil _)
      · exact ⟨hafter', v, hs, hre⟩
    · rintro ⟨_, j, hj, hre⟩
      apply bfsLoop_complete fn hwf
      · have := unvisitedCount_le fn.blocks.length
          (enqueueAll [] [] (blockAt fn ls.blockIdx).succs).1
        omega
      · exact enqueueAll_nodup _ _ _ List.nodup_nil
          (fun v hv => absurd hv (List.not_mem_nil _))
      · exact enqueueAll_queue_in_visited _ _ _
          (fun v hv => absurd hv (List.not_mem_nil _))
      · intro v hv
        rcases enqueueAll_queue_sub _ _ _ _ hv with h0 | hs
        · exact absurd h0 (List.not_mem_nil _)
        · exact hwf _ (blockAt_mem hblk) v hs
      · intro u hu hunq
        rcases enqueueAll_visited_to_queue _ _ _ _ hu with h0 | hq
        · exact absurd h0 (List.not_mem_nil _)
        · exact absurd hq hunq
      · intro u hu hunq
        rcases enqueueAll_visited_to_queue _ _ _ _ hu with h0 | hq
        · exact absurd h0 (List.not_mem_nil _)
        · exact absurd hq hunq
      · exact ⟨j, enqueueAll_succs_visited _ _ _ _ hj, hre⟩

lemma lockSitesInInstrs_blockIdx {bi : Nat} :
    ∀ (instrs : List Instr) (ii : Nat) {ls : lockSite},
      ls ∈ lockSitesInInstrs bi ii instrs → ls.blockIdx = bi := by
  intro instrs
  induction instrs with
  | nil => intro ii ls h; exact absurd h (List.not_mem_nil _)
  | cons i rest ih =>
    intro ii ls h
    cases i with
    | call c p =>
      cases c with
      | lock =>
        simp only [lockSitesInInstrs] at h
        rcases List.mem_cons.mp h with rfl | h
        · rfl
        · exact ih _ h
      | unlock =>
        simp only [lockSitesInInstrs] at h
        exact ih _ h
      | other =>
        simp only [lockSitesInInstrs] at h
        exact ih _ h
    | deferCall c =>
      simp only [lockSitesInInstrs] at h
      exact ih _ h
    | other =>
      simp only [lockSitesInInstrs] at h
      exact ih _ h

lemma lockSitesAux_mem_lt :
    ∀ (bs : List BasicBlock) (bi : Nat) {ls : lockSite},
      ls ∈ lockSitesAux bi bs →
      bi ≤ ls.blockIdx ∧ ls.blockIdx < bi + bs.length := by
  intro bs
  induction bs with
  | nil => intro bi ls h; exact absurd h (List.not_mem_nil _)
  | cons b rest ih =>
    intro bi ls h
    rw [lockSitesAux] at h
    rcases List.mem_append.mp h with h | h
    · have := lockSitesInInstrs_blockIdx b.instrs 0 h
      simp only [List.length_cons]
      omega
    · have := ih (bi + 1) h
      simp only [List.length_cons]
      omega

lemma lockSites_blockIdx_lt {fn : Fn} {ls : lockSite}
    (h : ls ∈ lockSites fn) : ls.blockIdx < fn.blocks.length := by
  have := lockSitesAux_mem_lt fn.blocks 0 h
  omega

/-- C7, amended: for a well-formed SSA graph with distinct lock-site
positions, `analyzeFn` reports a lock site iff the function has no deferred
unlock and some successor block of the lock's block can reach a function
exit (a block with no successors) through blocks containing no `Unlock()`,
where an `Unlock()` later in the lock's own block makes the site safe; a
lock whose own block is an exit block is never reported. -/
theorem analyzeFn_reports_iff (fn : Fn) (hwf : WFfn fn)
    (hpos : ((lockSites fn).map (fun ls => ls.pos)).Nodup)
    (ls : lockSite) (hls : ls ∈ lockSites fn) :
    (mkStaticFinding fn ls ∈ analyzeFn fn ↔
      hasDeferUnlock fn = false ∧ succPathProperty fn ls) := by
  have hblk := lockSites_blockIdx_lt hls
  have hblocks : ¬(fn.blocks = []) := by
    intro h
    rw [h] at hblk
    exact absurd hblk (by simp)
  have hlsne : ¬(lockSites fn = []) := by
    intro h
    rw [h] at hls
    exact absurd hls (List.not_mem_nil _)
  unfold analyzeFn
  rw [if_neg hblocks]
  by_cases hdefer : hasDeferUnlock fn = true
  · rw [if_pos (Or.inr hdefer)]
    simp [hdefer]
  · have hdefer' : hasDeferUnlock fn = false := by
      cases hE : hasDeferUnlock fn
      · rfl
      · exact absurd hE hdefer
    rw [if_neg (not_or.mpr ⟨hlsne, hdefer⟩)]
    constructor
    · intro hmem
      obtain ⟨ls', hls', hsome⟩ := List.mem_filterMap.mp hmem
      by_cases hp : pathExistsWithoutUnlock fn ls' = true
      · rw [if_pos hp, Option.some_inj] at hsome
        have hpe : ls'.pos = ls.pos := congrArg StaticFinding.location hsome
        have heq : ls' = ls := List.inj_on_of_nodup_map hpos hls' hls hpe
        subst heq
        exact ⟨hdefer', (pathExists_iff fn hwf ls' hblk).mp hp⟩
      · rw [if_neg hp] at hsome
        exact absurd hsome (by simp)
    · rintro ⟨_, hspec⟩
      have hp := (pathExists_iff fn hwf ls hblk).mpr hspec
      exact List.mem_filterMap.mpr ⟨ls, hls, by rw [if_pos hp]⟩

/-- A function whose lock block branches to a separate exit block with no
unlock anywhere: the site is reported. -/
def reportedLockFn : Fn :=
  { name := str "pkg.LockThenReturn",
    blocks := [ { instrs := [Instr.call .lock (str "m.go:3")], succs := [1] },
                { instrs := [], succs := [] } ] }

/-- The single lock site of `reportedLockFn`. -/
def reportedLockSite : lockSite := { blockIdx := 0, idx := 0, pos := str "m.go:3" }

/-- C7 witness: the amended iff applied to the concrete two-block function,
discharging well-formedness, position distinctness and site membership. -/
theorem analyzeFn_reports_iff_witness :
    (mkStaticFinding reportedLockFn reportedLockSite ∈ analyzeFn reportedLockFn ↔
      hasDeferUnlock reportedLockFn = false ∧
        succPathProperty reportedLockFn reportedLockSite) :=
  analyzeFn_reports_iff reportedLockFn (by decide) (by decide)
    reportedLockSite (by decide)

end ThreadGraph
